import Mathlib

/-!
Shallow embedding of `src/app.js` (class `ImageProcessor`) from the
AI-image-scraping repository, together with theorems settling the frozen
claims about it.

Conventions of the embedding:
* JavaScript numbers are modelled as `ℚ` (byte sizes as `ℕ`, cast to `ℚ`
  where the source divides), strings as `String`, arrays as `List`.
* `undefined`/absent fields are modelled with `Option`; JavaScript's
  falsy-based `a || b` on strings is `jsOr` below (the empty string is falsy).
* The asynchronous orchestrator `processWithVision` is modelled as a pure
  function from the image list and stubbed collaborators
  (`extract` for `extractMetadata`, `client` for `analyzeVision`) to the
  accumulated record list plus the ordered trace of observable effects
  (progress updates, alerts, item-status changes, row appends, delays).
* `analyzeVision` is modelled as a total function over an environment value
  describing the outcome of each suspension point (encoding, fetch, JSON
  parse, HTTP response), mirroring the `try`/`catch` structure of the source.
* String helpers that the source uses (`split("/")` on one character,
  `toLowerCase`, `substring`) are defined by structural recursion over the
  character list so that concrete instances evaluate inside the kernel.
-/

namespace ImageScraping

/-- One entry of `responses[0].labelAnnotations`: `{description, score}`. -/
structure VisionLabel where
  description : String
  score : ℚ
  deriving Repr, DecidableEq

/-- The uniform result shape returned by `analyzeVision`. -/
structure VisionResult where
  labels : List VisionLabel
  description : String
  error : Option String
  deriving Repr, DecidableEq

/-- A candidate file as seen by the pipeline: name, path-like string, byte size. -/
structure FileInput where
  name : String
  path : String
  size : ℕ
  deriving Repr, DecidableEq

/-- The metadata object produced by `extractMetadata` (body elided in the
source; only its field shape `{name, path, size, width, height}` is used). -/
structure Metadata where
  name : String
  path : String
  size : ℕ
  width : ℕ
  height : ℕ
  deriving Repr, DecidableEq

/-- The per-image record pushed onto `this.processedData`. -/
structure ImageRecord where
  name : String
  path : String
  size : ℕ
  width : ℕ
  height : ℕ
  description : String
  category_slug : String
  tags : String
  deriving Repr, DecidableEq

/-- JavaScript's string `a || b`: the empty string is falsy. -/
def jsOr (a b : String) : String :=
  if a = "" then b else a

/-- JavaScript's `s.substring(0, n)`: the first `n` characters of `s`. -/
def jsSubstring (s : String) (n : ℕ) : String :=
  ⟨s.data.take n⟩

/-- JavaScript's `s.toLowerCase()` on the character list. -/
def jsToLower (s : String) : String :=
  ⟨s.data.map Char.toLower⟩

/-- `split("/")` on a character list: JavaScript's `String.prototype.split`
with a one-character separator (`"".split("/")` is `[""]`, a trailing
separator yields a trailing empty segment). -/
def splitSlashChars : List Char → List (List Char)
  | [] => [[]]
  | c :: rest =>
    let r := splitSlashChars rest
    if c = '/' then [] :: r
    else
      match r with
      | [] => [[c]]
      | h :: t => (c :: h) :: t

/-- JavaScript's `s.split("/")`. -/
def jsSplitSlash (s : String) : List String :=
  (splitSlashChars s.data).map String.mk

/-- `path.replace(/\\/g, "/")`. -/
def normalizeSeps (path : String) : String :=
  ⟨path.data.map (fun c => if c = '\\' then '/' else c)⟩

/-- One character of the class `[\w-]` (ASCII word character or hyphen). -/
def isWordOrHyphen (c : Char) : Bool :=
  c.isAlphanum || c = '_' || c = '-'

/-- The test `/^[\w-]+$/.test(slug)`: nonempty, all characters in `[\w-]`. -/
def slugMatches (slug : String) : Bool :=
  !slug.data.isEmpty && slug.data.all isWordOrHyphen

/-- `getCategoryFromPath` from `src/app.js` lines 109–118: early return on the
falsy (empty) path, backslash normalization, split on `/`, then the
second-to-last segment if it matches `^[\w-]+$`, lowercased. -/
def getCategoryFromPath (path : String) : String :=
  if path = "" then ""
  else
    let parts := jsSplitSlash (normalizeSeps path)
    if 2 ≤ parts.length then
      let slug := parts.getD (parts.length - 2) ""
      if slugMatches slug then jsToLower slug else ""
    else ""

/-- `resolveCategory` as the spec words it (§4.3): normalize separators,
split, take the second-to-last segment when there are at least two segments,
accept it only when it matches `^[\w-]+$`, lowercase it; empty string
otherwise.  Unlike the source it has no separate early return for the empty
path (the spec folds that case into the "fewer than two segments" rule). -/
def resolveCategorySpec (path : String) : String :=
  let parts := jsSplitSlash (normalizeSeps path)
  if 2 ≤ parts.length then
    let slug := parts.getD (parts.length - 2) ""
    if slugMatches slug then jsToLower slug else ""
  else ""

/-! ## Record construction (`processWithVision` lines 136–144) -/

/-- The tag list built at lines 138–141: guarded by `labels && labels.length`,
filtered by `l.score && l.score > 0.6` (truthiness of the score, then the
threshold), mapped to `l.description.toLowerCase()`. -/
def visionTags (labels : List VisionLabel) : List String :=
  if labels.length ≠ 0 then
    (labels.filter (fun l => !decide (l.score = 0) && decide (l.score > 0.6))).map
      (fun l => jsToLower l.description)
  else []

/-- The stored `tags` field, line 143:
`tags.length ? `"${tags.join(", ")}"` : ""`. -/
def tagsField (labels : List VisionLabel) : String :=
  let tags := visionTags labels
  if tags.length ≠ 0 then "\"" ++ String.intercalate ", " tags ++ "\"" else ""

/-- The stored `description` field, line 137:
`description ? description.substring(0, 100) : ""`. -/
def recordDescription (d : String) : String :=
  if d = "" then "" else jsSubstring d 100

/-- Lines 136–144: merge the metadata with the vision result into the record
that is pushed onto `processedData`. -/
def buildRecord (meta : Metadata) (v : VisionResult) : ImageRecord :=
  { name := meta.name
    path := meta.path
    size := meta.size
    width := meta.width
    height := meta.height
    description := recordDescription v.description
    category_slug := getCategoryFromPath meta.path
    tags := tagsField v.labels }

/-! ## The batch orchestrator (`processWithVision` lines 120–152) -/

/-- One observable effect of the orchestrator, in emission order. -/
inductive Event where
  | progress (percent : ℚ) (label : String)
  | errorAlert (msg : String)
  | itemStatus (i : ℕ) (status : String)
  | rowAppend (r : ImageRecord)
  | delay (ms : ℕ)
  deriving Repr, DecidableEq

/-- Constructor test used to count alert events without comparing payloads. -/
def Event.isErrorAlert : Event → Bool
  | .errorAlert _ => true
  | _ => false

/-- Constructor test for delay events. -/
def Event.isDelay : Event → Bool
  | .delay _ => true
  | _ => false

/-- The percentage of a progress event, when the event is one. -/
def Event.progressPercent : Event → Option ℚ
  | .progress p _ => some p
  | _ => none

/-- The percentages of the progress events of a trace, in order. -/
def progressPercents (evs : List Event) : List ℚ :=
  evs.filterMap Event.progressPercent

/-- The loop body of `processWithVision` (lines 122–148), one iteration per
file: emit progress `((i+1)/n)*100`, extract metadata, call the (stubbed)
vision client; on `vision.error` alert, mark the item `error` and `continue`
(skipping the 200 ms delay); otherwise build the record, append it, mark the
item `completed` and await the 200 ms delay. -/
def processLoop (extract : FileInput → Metadata) (client : FileInput → VisionResult)
    (n : ℕ) : ℕ → List FileInput → List ImageRecord × List Event
  | _, [] => ([], [])
  | i, f :: rest =>
    let progEv := Event.progress ((((i + 1 : ℕ) : ℚ) / (n : ℚ)) * 100) ("Procesando " ++ f.name)
    let meta := extract f
    let vision := client f
    match vision.error with
    | some e =>
      let next := processLoop extract client n (i + 1) rest
      (next.1,
        progEv :: Event.errorAlert ("Error procesando " ++ f.name ++ ": " ++ e)
          :: Event.itemStatus i "error" :: next.2)
    | none =>
      let record := buildRecord meta vision
      let next := processLoop extract client n (i + 1) rest
      (record :: next.1,
        progEv :: Event.rowAppend record :: Event.itemStatus i "completed"
          :: Event.delay 200 :: next.2)

/-- `processWithVision` (lines 120–152) with the vision client and metadata
extractor abstracted: returns the records pushed during the run and the trace
of observable effects, ending with the explicit `updateProgress(100, ...)`. -/
def processWithVision (extract : FileInput → Metadata) (client : FileInput → VisionResult)
    (images : List FileInput) : List ImageRecord × List Event :=
  let run := processLoop extract client images.length 0 images
  (run.1, run.2 ++ [Event.progress 100 "Procesamiento completado"])

/-! ## Batch state (`prepareFiles` lines 92–106) -/

/-- The two collections held by the `ImageProcessor` instance. -/
structure BatchState where
  images : List FileInput
  processedData : List ImageRecord
  deriving Repr, DecidableEq

/-- `prepareFiles` (lines 92–106): count the oversized files
(`size / (1024*1024) > maxSizeMB`), keep the rest in input order, replace
`this.images`, and clear `this.processedData`.  Returns the new state and the
number of rejected files. -/
def prepareFiles (maxSizeMB : ℚ) (files : List FileInput) (_s : BatchState) :
    BatchState × ℕ :=
  let oversized := files.filter (fun f => (f.size : ℚ) / (1024 * 1024) > maxSizeMB)
  let kept := files.filter (fun f => (f.size : ℚ) / (1024 * 1024) ≤ maxSizeMB)
  (⟨kept, []⟩, oversized.length)

/-- A whole `processWithVision` call on the instance state: the run reads
`this.images` and pushes each built record onto `this.processedData`. -/
def runState (extract : FileInput → Metadata) (client : FileInput → VisionResult)
    (s : BatchState) : BatchState × List Event :=
  let run := processWithVision extract client s.images
  (⟨s.images, s.processedData ++ run.1⟩, run.2)

/-! ## The vision client (`analyzeVision` lines 155–189, `imageToBase64`
lines 191–204) -/

/-- A thrown JavaScript error as the `catch` block sees it: `e.message` and
`String(e)`. -/
structure JsError where
  message : String
  asString : String
  deriving Repr, DecidableEq

/-- The parsed JSON body as `analyzeVision` reads it: the optional `error`
field with its optional `message`, and the optional chains
`responses?.[0]?.labelAnnotations` and
`responses?.[0]?.webDetection?.bestGuessLabels?.[0]?.label`. -/
structure RespBody where
  error : Option (Option String)
  labelAnnotations : Option (List VisionLabel)
  bestGuessLabel : Option String
  deriving Repr, DecidableEq

/-- Outcome of one `analyzeVision` call's suspension points: the base64 read
fails (`imageToBase64` rejects with `Error("Lectura fallida")`), `fetch`
rejects, `response.json()` rejects, or a response arrives with its `ok` flag,
`statusText` and parsed body. -/
inductive VisionEnv where
  | encodeFail
  | fetchFail (e : JsError)
  | jsonFail (e : JsError)
  | got (ok : Bool) (statusText : String) (body : RespBody)
  deriving Repr, DecidableEq

/-- `respJson.error?.message || ...` head: the service message, or the empty
(falsy) string when the error field or its message is absent. -/
def serviceMessage (body : RespBody) : String :=
  match body.error with
  | some (some m) => m
  | _ => ""

/-- `analyzeVision` (lines 155–189): the `try` body classifies the response
(`!response.ok || respJson.error` becomes the error shape with an
`API: `-tagged message built by `errorMsg = respJson.error?.message ||
response.statusText || "Desconocido"`), and the `catch` block converts any
rejection into the error shape with `e.message || String(e)`.  The rejection
of `imageToBase64` carries the fixed message `"Lectura fallida"` (line 200). -/
def analyzeVision : VisionEnv → VisionResult
  | .encodeFail => ⟨[], "", some "Lectura fallida"⟩
  | .fetchFail e => ⟨[], "", some (jsOr e.message e.asString)⟩
  | .jsonFail e => ⟨[], "", some (jsOr e.message e.asString)⟩
  | .got ok statusText body =>
    if ok = false ∨ body.error.isSome then
      ⟨[], "", some ("API: " ++ jsOr (serviceMessage body) (jsOr statusText "Desconocido"))⟩
    else
      ⟨body.labelAnnotations.getD [], body.bestGuessLabel.getD "", none⟩

/-- The number of error alerts of a trace. -/
def countErrorAlerts (evs : List Event) : ℕ :=
  evs.countP Event.isErrorAlert

/-- Constructor test for an `itemStatus _ "error"` event. -/
def Event.isErrorStatus : Event → Bool
  | .itemStatus _ s => s = "error"
  | _ => false

/-! ## Concrete fixtures used by witnesses and counterexamples -/

/-- Stub metadata extractor: dimension probing defaulted to 0. -/
def stubExtract : FileInput → Metadata :=
  fun f => ⟨f.name, f.path, f.size, 0, 0⟩

/-- Fixture file 1. -/
def fileA : FileInput := ⟨"a.jpg", "photos/animals/a.jpg", 100⟩

/-- Fixture file 2. -/
def fileB : FileInput := ⟨"b.jpg", "photos/animals/b.jpg", 200⟩

/-- Fixture file 3. -/
def fileC : FileInput := ⟨"c.jpg", "photos/animals/c.jpg", 300⟩

/-- Stub vision client that always succeeds. -/
def okClient : FileInput → VisionResult :=
  fun _ => ⟨[], "a cat", none⟩

/-- Stub vision client that always returns an error result. -/
def errClient : FileInput → VisionResult :=
  fun _ => ⟨[], "", some "quota exceeded"⟩

/-- Stub vision client that errors exactly on `fileB`. -/
def mixedClient : FileInput → VisionResult :=
  fun f =>
    if f.name = "b.jpg" then ⟨[], "", some "quota exceeded"⟩
    else ⟨[], "a cat", none⟩

/-! ## Helper lemmas about the orchestrator loop -/

/-- The records accumulated by the loop are exactly the built records of the
files whose vision result has no error, in input order. -/
theorem processLoop_records (extract : FileInput → Metadata)
    (client : FileInput → VisionResult) (n i : ℕ) (images : List FileInput) :
    (processLoop extract client n i images).1
      = (images.filter (fun f => ((client f).error).isNone)).map
          (fun f => buildRecord (extract f) (client f)) := by
  induction images generalizing i with
  | nil => rfl
  | cons f rest ih =>
    cases h : (client f).error with
    | none => simp [processLoop, h, ih]
    | some e => simp [processLoop, h, ih]

/-- The loop emits one error alert per erroring file. -/
theorem processLoop_countErrorAlerts (extract : FileInput → Metadata)
    (client : FileInput → VisionResult) (n i : ℕ) (images : List FileInput) :
    (processLoop extract client n i images).2.countP Event.isErrorAlert
      = images.countP (fun f => ((client f).error).isSome) := by
  induction images generalizing i with
  | nil => rfl
  | cons f rest ih =>
    cases h : (client f).error with
    | none => simp [processLoop, h, ih, Event.isErrorAlert, List.countP_cons]
    | some e => simp [processLoop, h, ih, Event.isErrorAlert, List.countP_cons]

/-- The loop emits one delay event per file whose vision result has no error,
and none for the erroring files (the `continue` skips the delay). -/
theorem processLoop_countDelays (extract : FileInput → Metadata)
    (client : FileInput → VisionResult) (n i : ℕ) (images : List FileInput) :
    (processLoop extract client n i images).2.countP Event.isDelay
      = images.countP (fun f => ((client f).error).isNone) := by
  induction images generalizing i with
  | nil => rfl
  | cons f rest ih =>
    cases h : (client f).error with
    | none => simp [processLoop, h, ih, Event.isDelay, List.countP_cons]
    | some e => simp [processLoop, h, ih, Event.isDelay, List.countP_cons]

/-- The loop starting at index `i` emits exactly one progress percentage per
file, namely `(i+j+1)/n * 100` for the `j`-th remaining file. -/
theorem processLoop_percents (extract : FileInput → Metadata)
    (client : FileInput → VisionResult) (n i : ℕ) (images : List FileInput) :
    progressPercents (processLoop extract client n i images).2
      = (List.range images.length).map
          (fun j => (((i + j + 1 : ℕ) : ℚ) / (n : ℚ)) * 100) := by
  induction images generalizing i with
  | nil => rfl
  | cons f rest ih =>
    have hmap : ∀ k : ℕ,
        (List.range k).map
            (fun j => (((i + 1 + j + 1 : ℕ) : ℚ) / (n : ℚ)) * 100)
          = (List.range k).map
              (fun j => (((i + (j + 1) + 1 : ℕ) : ℚ) / (n : ℚ)) * 100) := by
      intro k
      apply List.map_congr_left
      intro j _
      rw [show i + 1 + j + 1 = i + (j + 1) + 1 by omega]
    cases h : (client f).error with
    | none =>
      simp [processLoop, h, progressPercents, Event.progressPercent,
        List.range_succ_eq_map, List.map_map, Function.comp]
      simp only [progressPercents] at ih
      rw [ih (i + 1), hmap]
      apply List.map_congr_left
      intro j _
      simp only [Function.comp_apply]
      push_cast
      ring
    | some e =>
      simp [processLoop, h, progressPercents, Event.progressPercent,
        List.range_succ_eq_map, List.map_map, Function.comp]
      simp only [progressPercents] at ih
      rw [ih (i + 1), hmap]
      apply List.map_congr_left
      intro j _
      simp only [Function.comp_apply]
      push_cast
      ring

/-! ## Claim theorems -/

/-- C4: `getCategoryFromPath` is a pure total function that normalizes both
separators and returns the lowercased second-to-last segment exactly when the
path has at least two segments and that segment matches `^[\w-]+$`, and the
empty string otherwise — it agrees everywhere with the spec-worded
`resolveCategorySpec`, and on the spec's four examples (plus a
backslash-separated one). -/
theorem getCategoryFromPath_matchesSpec :
    (∀ path : String, getCategoryFromPath path = resolveCategorySpec path)
      ∧ getCategoryFromPath "photos/animals/cat.jpg" = "animals"
      ∧ getCategoryFromPath "cat.jpg" = ""
      ∧ getCategoryFromPath "a/b!c/cat.jpg" = ""
      ∧ getCategoryFromPath "" = ""
      ∧ getCategoryFromPath "photos\\ANIMALS\\cat.jpg" = "animals" := by
  refine ⟨fun path => ?_, by decide, by decide, by decide, by decide, by decide⟩
  by_cases h : path = ""
  · subst h; decide
  · simp [getCategoryFromPath, resolveCategorySpec, h]

/-- C8: `prepareFiles` accepts exactly the files whose byte size is at most
`maxSizeMB * 1024 * 1024` (boundary included), keeps them in input order
(sublist of the input), and rejects exactly the files strictly over the
limit. -/
theorem prepareFiles_sizeGate (maxSizeMB : ℚ) (files : List FileInput)
    (s : BatchState) :
    (prepareFiles maxSizeMB files s).1.images
        = files.filter (fun f => decide ((f.size : ℚ) ≤ maxSizeMB * (1024 * 1024)))
      ∧ ((prepareFiles maxSizeMB files s).1.images).Sublist files
      ∧ (prepareFiles maxSizeMB files s).2
          = files.countP (fun f => decide (maxSizeMB * (1024 * 1024) < (f.size : ℚ))) := by
  have hpos : (0 : ℚ) < 1024 * 1024 := by norm_num
  refine ⟨?_, ?_, ?_⟩
  · apply List.filter_congr
    intro f _
    rw [decide_eq_decide]
    exact div_le_iff₀ hpos
  · exact List.filter_sublist files
  · show (files.filter _).length = _
    rw [List.countP_eq_length_filter]
    congr 1
    apply List.filter_congr
    intro f _
    rw [decide_eq_decide, gt_iff_lt]
    exact lt_div_iff₀ hpos

/-- C6: with a deterministic stubbed vision client, accepting the same file
set (`prepareFiles`, which resets `processedData`) and running
`processWithVision` a second time leaves exactly the same ordered record
collection as the first run. -/
theorem processWithVision_deterministicRepeat (extract : FileInput → Metadata)
    (client : FileInput → VisionResult) (maxSizeMB : ℚ)
    (files : List FileInput) (s : BatchState) :
    ((runState extract client (prepareFiles maxSizeMB files s).1).1).processedData
      = ((runState extract client
            (prepareFiles maxSizeMB files
              ((runState extract client
                (prepareFiles maxSizeMB files s).1).1)).1).1).processedData := by
  rfl

/-- C9: the stored description is the vision description truncated to its
first 100 characters — its length is `min 100` of the original length (so a
longer description becomes exactly 100 characters, with nothing appended),
and an empty description stays empty. -/
theorem recordDescription_truncates (d : String) :
    recordDescription d = jsSubstring d 100
      ∧ (recordDescription d).length = min 100 d.length
      ∧ recordDescription "" = ""
      ∧ (recordDescription ⟨List.replicate 150 'x'⟩).length = 100 := by
  have hmain : recordDescription d = jsSubstring d 100 := by
    by_cases h : d = ""
    · subst h; rfl
    · simp [recordDescription, h]
  refine ⟨hmain, ?_, rfl, by decide⟩
  rw [hmain]
  show (d.data.take 100).length = min 100 d.length
  rw [List.length_take]
  rfl

/-- C3: the tag list is exactly the labels with score strictly above 0.6,
lowercased in original order (the score-truthiness test of the source is
redundant), and the stored field is the quoted comma-and-space join when that
list is nonempty and the empty string otherwise; on the spec's example only
`"cat"` survives. -/
theorem visionTags_threshold (labels : List VisionLabel) :
    visionTags labels
        = (labels.filter (fun l => decide ((0.6 : ℚ) < l.score))).map
            (fun l => jsToLower l.description)
      ∧ tagsField labels
          = (if visionTags labels = [] then ""
             else "\"" ++ String.intercalate ", " (visionTags labels) ++ "\"")
      ∧ tagsField [⟨"Cat", 0.9⟩, ⟨"Animal", 0.5⟩] = "\"cat\"" := by
  refine ⟨?_, ?_, ?_⟩
  · by_cases h : labels.length = 0
    · rw [List.length_eq_zero] at h
      subst h
      rfl
    · simp only [visionTags, h, ne_eq, not_false_eq_true, if_true]
      congr 1
      apply List.filter_congr
      intro l _
      by_cases hl : (0.6 : ℚ) < l.score
      · have h0 : l.score ≠ 0 := by
          intro h0
          rw [h0] at hl
          norm_num at hl
        simp [hl, h0, gt_iff_lt]
      · simp [hl, gt_iff_lt]
  · simp only [tagsField]
    by_cases h : visionTags labels = []
    · simp [h]
    · have hlen : (visionTags labels).length ≠ 0 := by
        simpa [List.length_eq_zero] using h
      simp [h, hlen]
  · norm_num [tagsField, visionTags, List.filter]
    decide

/-- C2: `analyzeVision` is total over every environment outcome and never
produces anything but a `VisionResult`: whenever the result is not a success
(`error = none`), it is exactly the shape
`{labels := [], description := "", error := some message}`. -/
theorem analyzeVision_neverThrows (env : VisionEnv) (e : JsError) (st : String)
    (body : RespBody) (msg : Option String) :
    ((analyzeVision env).error = none
        ∨ ∃ m, analyzeVision env = ⟨[], "", some m⟩)
      ∧ (analyzeVision VisionEnv.encodeFail).error.isSome = true
      ∧ (analyzeVision (VisionEnv.fetchFail e)).error.isSome = true
      ∧ (analyzeVision (VisionEnv.jsonFail e)).error.isSome = true
      ∧ (analyzeVision (VisionEnv.got false st body)).error.isSome = true
      ∧ (analyzeVision (VisionEnv.got true st
          ⟨some msg, body.labelAnnotations, body.bestGuessLabel⟩)).error.isSome
          = true := by
  refine ⟨?_, rfl, ?_, ?_, ?_, ?_⟩
  · cases env with
    | encodeFail => exact Or.inr ⟨_, rfl⟩
    | fetchFail e => exact Or.inr ⟨_, rfl⟩
    | jsonFail e => exact Or.inr ⟨_, rfl⟩
    | got ok st body =>
      by_cases h : ok = false ∨ body.error.isSome
      · refine Or.inr
          ⟨"API: " ++ jsOr (serviceMessage body) (jsOr st "Desconocido"), ?_⟩
        simp only [analyzeVision]
        rw [if_pos h]
      · left
        simp only [analyzeVision]
        rw [if_neg h]
  · simp [analyzeVision, jsOr]
  · simp [analyzeVision, jsOr]
  · simp [analyzeVision]
  · simp [analyzeVision]

/-- C10: an error result from the HTTP-level branch carries
`"API: "` followed by the service message, else the status text, else
`"Desconocido"`; the catch-branch results carry the raw rejection message
with no prefixing (for the base64 read, the fixed `"Lectura fallida"`). -/
theorem analyzeVision_errorMessages (e : JsError) (ok : Bool) (st : String)
    (body : RespBody) :
    analyzeVision VisionEnv.encodeFail = ⟨[], "", some "Lectura fallida"⟩
      ∧ analyzeVision (VisionEnv.fetchFail e)
          = ⟨[], "", some (jsOr e.message e.asString)⟩
      ∧ analyzeVision (VisionEnv.jsonFail e)
          = ⟨[], "", some (jsOr e.message e.asString)⟩
      ∧ (ok = false ∨ body.error.isSome →
          analyzeVision (VisionEnv.got ok st body)
            = ⟨[], "",
                some ("API: " ++ jsOr (serviceMessage body) (jsOr st "Desconocido"))⟩) := by
  refine ⟨rfl, rfl, rfl, fun h => ?_⟩
  simp only [analyzeVision]
  rw [if_pos h]

/-- C10 witness: a 404-style response with no body error field yields the
status-text message with the `API: ` tag. -/
theorem analyzeVision_errorMessages_witness :
    analyzeVision (VisionEnv.got false "Not Found" ⟨none, none, none⟩)
      = ⟨[], "",
          some ("API: " ++ jsOr (serviceMessage ⟨none, none, none⟩)
            (jsOr "Not Found" "Desconocido"))⟩ :=
  (analyzeVision_errorMessages ⟨"", ""⟩ false "Not Found" ⟨none, none, none⟩).2.2.2
    (Or.inl rfl)

/-- C1: an item whose vision result carries an error is skipped without
aborting the run — in general the accumulated records are exactly the built
records of the non-erroring files in input order, and for a batch of three
files where only the second errors, the run yields the two records for files
1 and 3 in order, emits exactly one error alert, and marks item 1 `error`. -/
theorem processWithVision_skipsErroredItems
    (extract : FileInput → Metadata) (client : FileInput → VisionResult)
    (f1 f2 f3 : FileInput) (m2 : String)
    (h1 : (client f1).error = none) (h2 : (client f2).error = some m2)
    (h3 : (client f3).error = none) :
    (∀ images : List FileInput,
        (processWithVision extract client images).1
          = (images.filter (fun f => ((client f).error).isNone)).map
              (fun f => buildRecord (extract f) (client f)))
      ∧ (processWithVision extract client [f1, f2, f3]).1
          = [buildRecord (extract f1) (client f1),
             buildRecord (extract f3) (client f3)]
      ∧ countErrorAlerts (processWithVision extract client [f1, f2, f3]).2 = 1
      ∧ Event.itemStatus 1 "error"
          ∈ (processWithVision extract client [f1, f2, f3]).2 := by
  have hrec : ∀ images : List FileInput,
      (processWithVision extract client images).1
        = (images.filter (fun f => ((client f).error).isNone)).map
            (fun f => buildRecord (extract f) (client f)) := fun images =>
    processLoop_records extract client images.length 0 images
  refine ⟨hrec, ?_, ?_, ?_⟩
  · rw [hrec]
    simp [h1, h2, h3]
  · simp only [countErrorAlerts, processWithVision, List.countP_append]
    rw [processLoop_countErrorAlerts]
    simp [h1, h2, h3, Event.isErrorAlert, List.countP_cons]
  · simp [processWithVision, processLoop, h1, h2, h3]

/-- C1 witness: the three-fixture batch where only `fileB` errors yields
exactly the records of `fileA` and `fileC`. -/
theorem processWithVision_skipsErroredItems_witness :
    (processWithVision stubExtract mixedClient [fileA, fileB, fileC]).1
      = [buildRecord (stubExtract fileA) (mixedClient fileA),
         buildRecord (stubExtract fileC) (mixedClient fileC)] :=
  (processWithVision_skipsErroredItems stubExtract mixedClient fileA fileB fileC
      "quota exceeded" (by decide) (by decide) (by decide)).2.1

/-- C5: for a run over `n ≥ 1` images the emitted progress percentages are
exactly `(i+1)/n * 100` for `i = 0, …, n-1` followed by the final explicit
100, the part before the final emission is strictly increasing, and the
sequence ends at 100. -/
theorem progressSequence_monotone (extract : FileInput → Metadata)
    (client : FileInput → VisionResult) (images : List FileInput) (n : ℕ)
    (hn : images.length = n) (hpos : 1 ≤ n) :
    progressPercents (processWithVision extract client images).2
        = ((List.range n).map (fun i : ℕ => (((i : ℚ) + 1) / (n : ℚ)) * 100)) ++ [100]
      ∧ ((List.range n).map
          (fun i : ℕ => (((i : ℚ) + 1) / (n : ℚ)) * 100)).Pairwise (· < ·)
      ∧ (progressPercents (processWithVision extract client images).2).getLast?
          = some 100 := by
  have hq : (0 : ℚ) < n := by
    exact_mod_cast Nat.lt_of_lt_of_le Nat.zero_lt_one hpos
  have heq : progressPercents (processWithVision extract client images).2
      = ((List.range n).map (fun i : ℕ => (((i : ℚ) + 1) / (n : ℚ)) * 100)) ++ [100] := by
    simp only [processWithVision, progressPercents, List.filterMap_append]
    congr 1
    · have hp := processLoop_percents extract client images.length 0 images
      simp only [progressPercents] at hp
      rw [hp, hn]
      apply List.map_congr_left
      intro j _
      push_cast
      try ring
  have hmono : ∀ a b : ℕ, a < b →
      (((a : ℚ) + 1) / (n : ℚ)) * 100 < (((b : ℚ) + 1) / (n : ℚ)) * 100 := by
    intro a b hab
    have hc : ((a : ℚ) + 1) < ((b : ℚ) + 1) := by
      have : (a : ℚ) < b := by exact_mod_cast hab
      linarith
    exact mul_lt_mul_of_pos_right
      ((div_lt_div_iff_of_pos_right hq).mpr hc) (by norm_num)
  refine ⟨heq, List.Pairwise.map _ hmono (List.pairwise_lt_range n), ?_⟩
  rw [heq]
  exact List.getLast?_concat _

/-- C5 witness: the one-image run emits `[100, 100]`, i.e. the formula list
for `n = 1` followed by the final 100. -/
theorem progressSequence_monotone_witness :
    progressPercents (processWithVision stubExtract okClient [fileA]).2
      = ((List.range 1).map
          (fun i : ℕ => (((i : ℚ) + 1) / ((1 : ℕ) : ℚ)) * 100)) ++ [100] :=
  (progressSequence_monotone stubExtract okClient [fileA] 1 rfl (by decide)).1

/-- C7 counterexample: in a one-image batch whose only item errors, the run
emits the `error` item status (the item was processed) but no delay event at
all — the `continue` of the error branch skips the 200 ms delay, refuting
"a delay after every item regardless of outcome". -/
theorem processWithVision_delaySkippedOnError_cex :
    (processWithVision stubExtract errClient [fileA]).2.countP Event.isDelay = 0
      ∧ (processWithVision stubExtract errClient [fileA]).2.countP
          Event.isErrorStatus = 1 := by
  decide

/-- C7 (amended): the fixed 200 ms cooperative delay is inserted after every
successfully processed item and only after those — the number of delay events
equals the number of items whose vision result carries no error, so errored
items continue to the next item without the delay. -/
theorem processWithVision_delayPerSuccess (extract : FileInput → Metadata)
    (client : FileInput → VisionResult) (images : List FileInput) :
    (processWithVision extract client images).2.countP Event.isDelay
      = images.countP (fun f => ((client f).error).isNone) := by
  simp only [processWithVision, List.countP_append]
  rw [processLoop_countDelays]
  simp [Event.isDelay, List.countP_cons]

end ImageScraping
